import Mathlib

/-!
Verification of the event-log analytics layer of the BPPSO-Exercise1
repository.  The Python sources are shallowly embedded: pandas dataframes
become lists of row structures, nullable columns become Option values,
numeric results (Python floats) become exact rationals, timestamps become
integers (seconds), and the stable sorts performed by pandas
(sort_values on several keys uses a stable lexsort) are modelled with
List.insertionSort, a stable sort.
-/

/-! ## List helpers

Python dicts and collections.Counter keep keys in first-insertion order, so
deduplicating a list while keeping the first occurrence of every element is
the basic building block of the groupby/Counter embeddings below. -/

/-- Keeps the first occurrence of every element not already in seen. -/
def firstOccs {α : Type} [DecidableEq α] (seen : List α) : List α → List α
  | [] => []
  | a :: l => if a ∈ seen then firstOccs seen l else a :: firstOccs (a :: seen) l

/-- Deduplication keeping first occurrences, in order of first appearance. -/
def dedupFirst {α : Type} [DecidableEq α] (l : List α) : List α := firstOccs [] l

theorem mem_firstOccs {α : Type} [DecidableEq α] (seen l : List α) (x : α) :
    x ∈ firstOccs seen l ↔ x ∈ l ∧ x ∉ seen := by
  induction l generalizing seen with
  | nil => simp [firstOccs]
  | cons a l ih =>
    by_cases ha : a ∈ seen
    · rw [firstOccs, if_pos ha, ih]
      constructor
      · rintro ⟨hx, hs⟩
        exact ⟨List.mem_cons_of_mem a hx, hs⟩
      · rintro ⟨hx, hs⟩
        rcases List.mem_cons.mp hx with rfl | hx
        · exact absurd ha hs
        · exact ⟨hx, hs⟩
    · rw [firstOccs, if_neg ha]
      constructor
      · intro hmem
        rcases List.mem_cons.mp hmem with rfl | hmem
        · exact ⟨List.mem_cons_self x l, ha⟩
        · obtain ⟨hx, hs⟩ := (ih (a :: seen)).mp hmem
          exact ⟨List.mem_cons_of_mem a hx, fun hmem2 => hs (List.mem_cons_of_mem a hmem2)⟩
      · rintro ⟨hx, hs⟩
        rcases List.mem_cons.mp hx with rfl | hx
        · exact List.mem_cons_self x _
        · by_cases hxa : x = a
          · subst hxa
            exact List.mem_cons_self x _
          · refine List.mem_cons_of_mem a ((ih (a :: seen)).mpr ⟨hx, ?_⟩)
            intro hmem
            rcases List.mem_cons.mp hmem with h | h
            · exact hxa h
            · exact hs h

theorem nodup_firstOccs {α : Type} [DecidableEq α] (seen l : List α) :
    (firstOccs seen l).Nodup := by
  induction l generalizing seen with
  | nil => simp [firstOccs]
  | cons a l ih =>
    by_cases ha : a ∈ seen
    · simpa [firstOccs, if_pos ha] using ih seen
    · simp only [firstOccs, if_neg ha, List.nodup_cons]
      refine ⟨?_, ih (a :: seen)⟩
      intro hmem
      exact ((mem_firstOccs (a :: seen) l a).mp hmem).2 (List.mem_cons_self a seen)

theorem mem_dedupFirst {α : Type} [DecidableEq α] (l : List α) (x : α) :
    x ∈ dedupFirst l ↔ x ∈ l := by
  simp [dedupFirst, mem_firstOccs]

theorem nodup_dedupFirst {α : Type} [DecidableEq α] (l : List α) :
    (dedupFirst l).Nodup := nodup_firstOccs [] l

theorem dedupFirst_perm_dedup {α : Type} [DecidableEq α] (l : List α) :
    List.Perm (dedupFirst l) l.dedup := by
  apply List.perm_of_nodup_nodup_toFinset_eq (nodup_dedupFirst l) l.nodup_dedup
  ext x
  simp [mem_dedupFirst]

theorem sum_count_dedupFirst {α : Type} [DecidableEq α] (l : List α) :
    ((dedupFirst l).map (fun k => l.count k)).sum = l.length := by
  have h := (dedupFirst_perm_dedup l).map (fun k => l.count k)
  rw [h.sum_eq]
  exact List.sum_map_count_dedup_eq_length l

/-! ## Stability of the sort embedding

Pandas sort_values on several keys uses a stable lexsort; the embedding
uses List.insertionSort, which is also stable.  The lemma below captures
stability in filter form: the rows of any single equivalence class of the
sort key come out in exactly their original order. -/

theorem filter_insertionSort_eq {α : Type} (r : α → α → Prop) [DecidableRel r]
    (l : List α) (p : α → Bool) (hp : ∀ a b, p a → p b → r a b) :
    (l.insertionSort r).filter p = l.filter p := by
  have hpair : (l.filter p).Pairwise r := by
    apply List.pairwise_of_forall_mem_list
    intro a ha b hb
    exact hp a b (List.of_mem_filter ha) (List.of_mem_filter hb)
  have hsub : List.Sublist (l.filter p) (l.insertionSort r) :=
    List.sublist_insertionSort hpair (List.filter_sublist l)
  have hsub2 : List.Sublist (l.filter p) ((l.insertionSort r).filter p) := by
    have := hsub.filter p
    rw [List.filter_filter] at this
    simpa only [Bool.and_self] using this
  have hperm : List.Perm ((l.insertionSort r).filter p) (l.filter p) :=
    (List.perm_insertionSort r l).filter p
  exact (hsub2.eq_of_length hperm.length_eq.symm).symm

/-- A deduplicated list has at most one element exactly when all elements of
the original list are equal to one another. -/
theorem dedup_length_le_one_iff {α : Type} [DecidableEq α] (l : List α) :
    l.dedup.length ≤ 1 ↔ ∀ x ∈ l, ∀ y ∈ l, x = y := by
  constructor
  · intro h x hx y hy
    have hx' : x ∈ l.dedup := (List.mem_dedup).mpr hx
    have hy' : y ∈ l.dedup := (List.mem_dedup).mpr hy
    match hd : l.dedup, h with
    | [], _ =>
      rw [hd] at hx'
      exact absurd hx' (List.not_mem_nil x)
    | [a], _ =>
      rw [hd] at hx' hy'
      have h1 := List.mem_singleton.mp hx'
      have h2 := List.mem_singleton.mp hy'
      rw [h1, h2]
  · intro h
    match hd : l.dedup with
    | [] => simp
    | [a] => simp
    | a :: b :: t =>
      exfalso
      have hnd : (a :: b :: t).Nodup := hd ▸ l.nodup_dedup
      have ha : a ∈ l := List.mem_dedup.mp (hd ▸ List.mem_cons_self a (b :: t))
      have hb : b ∈ l := List.mem_dedup.mp
        (hd ▸ List.mem_cons_of_mem a (List.mem_cons_self b t))
      have : a = b := h a ha b hb
      rw [List.nodup_cons] at hnd
      exact hnd.1 (this ▸ List.mem_cons_self b t)

namespace CheckConstantAttributes

/-! ## AttributeClassifier: src/check_constant_attributes.py

The analysis of one column only looks at the case-identifier column and the
analysed column of the dataframe, so a row is embedded as that pair.  Column
values are nullable (pandas NaN becomes none) and of arbitrary decidable
type.  Python float percentages are embedded as exact rationals. -/

/-- One row of the event-log table, projected to the case-id column and the
analysed column. -/
structure ARow (α : Type) where
  caseId : String
  value : Option α

/-- Embedding of is_constant_in_case: all non-null values in a case are the
same.  series.dropna() becomes filterMap id, nunique becomes the length of
the deduplicated list. -/
def is_constant_in_case {α : Type} [DecidableEq α] (series : List (Option α)) : Bool :=
  let nonNull := series.filterMap id
  if nonNull.length = 0 then true
  else if nonNull.length = 1 then true
  else decide (nonNull.dedup.length ≤ 1)

/-- Distinct case ids of the table (df.groupby(CASE_ID_COL) group keys /
df[CASE_ID_COL].nunique() counts them). -/
def caseIdsOf {α : Type} (rows : List (ARow α)) : List String :=
  dedupFirst (rows.map ARow.caseId)

/-- Values of the analysed column restricted to one case group. -/
def caseValues {α : Type} (rows : List (ARow α)) (c : String) : List (Option α) :=
  (rows.filter (fun r => decide (r.caseId = c))).map ARow.value

/-- Result record of analyze_attribute_constancy. -/
structure AnalysisResult where
  is_constant : Bool
  percent_constant : ℚ
  total_cases : Nat
  constant_cases : Nat
deriving DecidableEq

/-- Embedding of analyze_attribute_constancy.  The isCaseIdColumn flag stands
for the comparison column == CASE_ID_COL of the source. -/
def analyze_attribute_constancy {α : Type} [DecidableEq α]
    (rows : List (ARow α)) (isCaseIdColumn : Bool) : AnalysisResult :=
  if isCaseIdColumn then
    { is_constant := false
      percent_constant := 0
      total_cases := (caseIdsOf rows).length
      constant_cases := 0 }
  else
    let perCase := (caseIdsOf rows).map (fun c => is_constant_in_case (caseValues rows c))
    let totalCases := perCase.length
    let constantCases := perCase.count true
    let percent : ℚ := if totalCases > 0 then (constantCases : ℚ) / totalCases * 100 else 0
    { is_constant := decide (percent = 100)
      percent_constant := percent
      total_cases := totalCases
      constant_cases := constantCases }

end CheckConstantAttributes

namespace AttributeVisualizations

/-! ## Level classification: src/Visualization/attribute_visualizations.py -/

open CheckConstantAttributes

/-- Classification levels of classify_attribute_level. -/
inductive Level
  | caseLevel
  | mostlyCase
  | eventLevel
deriving DecidableEq

/-- Fixed threshold for classifying attributes as case-level. -/
def CASE_LEVEL_THRESHOLD : ℚ := 80

/-- Result record of classify_attribute_level. -/
structure Classification where
  level : Level
  percent_constant : ℚ
  is_case_level : Bool
deriving DecidableEq

/-- Embedding of classify_attribute_level.  Its local is_constant_in_case is
identical to the one of check_constant_attributes.py and is shared.  The
isCaseIdColumn flag stands for column == case_id_col. -/
def classify_attribute_level {α : Type} [DecidableEq α]
    (rows : List (ARow α)) (isCaseIdColumn : Bool) : Classification :=
  if isCaseIdColumn then
    { level := .eventLevel, percent_constant := 0, is_case_level := false }
  else
    let perCase := (caseIdsOf rows).map (fun c => is_constant_in_case (caseValues rows c))
    let totalCases := perCase.length
    let numCasesConstant := perCase.count true
    let percent : ℚ := if totalCases > 0 then (numCasesConstant : ℚ) / totalCases * 100 else 0
    if percent ≥ CASE_LEVEL_THRESHOLD then
      { level := .caseLevel, percent_constant := percent, is_case_level := true }
    else if percent ≥ 50 then
      { level := .mostlyCase, percent_constant := percent, is_case_level := true }
    else
      { level := .eventLevel, percent_constant := percent, is_case_level := false }

end AttributeVisualizations

namespace CheckConstantAttributes

/-- Characterization of is_constant_in_case: it accepts exactly the series
with no non-null value, one non-null value, or all non-null values equal. -/
theorem is_constant_in_case_iff {α : Type} [DecidableEq α] (series : List (Option α)) :
    is_constant_in_case series = true ↔
      (series.filterMap id = [] ∨ (series.filterMap id).length = 1 ∨
        ∀ x ∈ series.filterMap id, ∀ y ∈ series.filterMap id, x = y) := by
  unfold is_constant_in_case
  by_cases h0 : (series.filterMap id).length = 0
  · simp only [h0, if_pos rfl]
    simp [List.length_eq_zero.mp h0]
  · by_cases h1 : (series.filterMap id).length = 1
    · simp [h0, h1]
    · rw [if_neg h0, if_neg h1]
      simp only [decide_eq_true_eq]
      rw [dedup_length_le_one_iff]
      constructor
      · intro h
        exact Or.inr (Or.inr h)
      · rintro (he | h1' | h)
        · exact absurd (by rw [he]; rfl) h0
        · exact absurd h1' h1
        · exact h

/-- Counting true over a mapped boolean list is the length of the filter. -/
theorem count_true_map_eq_length_filter {β : Type} (l : List β) (f : β → Bool) :
    (l.map f).count true = (l.filter f).length := by
  induction l with
  | nil => rfl
  | cons a l ih =>
    by_cases hf : f a <;>
      simp [List.count_cons, List.filter_cons, hf, ih]

/-- Closed form of analyze_attribute_constancy on a non-case-id column. -/
theorem analyze_false_eq {α : Type} [DecidableEq α] (rows : List (ARow α)) :
    analyze_attribute_constancy rows false =
      { is_constant := decide
          ((if 0 < (caseIdsOf rows).length then
              (((caseIdsOf rows).filter
                  (fun c => is_constant_in_case (caseValues rows c))).length : ℚ) /
                ((caseIdsOf rows).length : ℚ) * 100
            else 0) = 100)
        percent_constant :=
          if 0 < (caseIdsOf rows).length then
            (((caseIdsOf rows).filter
                (fun c => is_constant_in_case (caseValues rows c))).length : ℚ) /
              ((caseIdsOf rows).length : ℚ) * 100
          else 0
        total_cases := (caseIdsOf rows).length
        constant_cases := ((caseIdsOf rows).filter
            (fun c => is_constant_in_case (caseValues rows c))).length } := by
  simp [analyze_attribute_constancy, count_true_map_eq_length_filter]

/-- C2: within each case group the column counts as constant exactly when it
has zero non-null values, one non-null value, or several all-equal non-null
values; percent_constant is 100 times the number of constant cases divided
by the number of distinct case ids, and always lies in the interval
from 0 to 100. -/
theorem percent_constant_spec {α : Type} [DecidableEq α] (rows : List (ARow α)) :
    (∀ c, c ∈ caseIdsOf rows →
      (is_constant_in_case (caseValues rows c) = true ↔
        ((caseValues rows c).filterMap id = [] ∨
         ((caseValues rows c).filterMap id).length = 1 ∨
         ∀ x ∈ (caseValues rows c).filterMap id,
           ∀ y ∈ (caseValues rows c).filterMap id, x = y)))
    ∧ (analyze_attribute_constancy rows false).total_cases = (caseIdsOf rows).length
    ∧ (analyze_attribute_constancy rows false).constant_cases =
        ((caseIdsOf rows).filter (fun c => is_constant_in_case (caseValues rows c))).length
    ∧ (0 < (caseIdsOf rows).length →
        (analyze_attribute_constancy rows false).percent_constant =
          100 * ((analyze_attribute_constancy rows false).constant_cases : ℚ) /
            ((caseIdsOf rows).length : ℚ))
    ∧ 0 ≤ (analyze_attribute_constancy rows false).percent_constant
    ∧ (analyze_attribute_constancy rows false).percent_constant ≤ 100 := by
  have hle : (((caseIdsOf rows).filter
      (fun c => is_constant_in_case (caseValues rows c))).length : ℚ) ≤
      ((caseIdsOf rows).length : ℚ) := by
    exact_mod_cast List.length_filter_le _ _
  refine ⟨fun c _ => is_constant_in_case_iff _, ?_, ?_, ?_, ?_, ?_⟩
  · rw [analyze_false_eq]
  · rw [analyze_false_eq]
  · intro hpos
    rw [analyze_false_eq]
    simp only [if_pos hpos]
    ring
  · rw [analyze_false_eq]
    simp only
    split
    · positivity
    · exact le_refl 0
  · rw [analyze_false_eq]
    simp only
    split
    · rename_i hpos
      have hn : (0 : ℚ) ≤ ((caseIdsOf rows).length : ℚ) := by positivity
      have h1 : (((caseIdsOf rows).filter
          (fun c => is_constant_in_case (caseValues rows c))).length : ℚ) /
          ((caseIdsOf rows).length : ℚ) ≤ 1 := div_le_one_of_le₀ hle hn
      calc (((caseIdsOf rows).filter
            (fun c => is_constant_in_case (caseValues rows c))).length : ℚ) /
            ((caseIdsOf rows).length : ℚ) * 100
          ≤ 1 * 100 := by
            exact mul_le_mul_of_nonneg_right h1 (by norm_num)
        _ = 100 := by norm_num
    · norm_num

/-- C2 witness: concrete table with two cases, one constant and one not, so
total cases is 2, constant cases is 1 and percent_constant is 50. -/
theorem percent_constant_spec_witness :
    ("a" ∈ caseIdsOf [ARow.mk "a" (some 1), ARow.mk "a" (some 1),
        ARow.mk "b" (some 2), ARow.mk "b" (some 3)]
      ∧ (is_constant_in_case (caseValues [ARow.mk "a" (some 1), ARow.mk "a" (some 1),
          ARow.mk "b" (some 2), ARow.mk "b" (some 3)] "a") = true ↔
        ((caseValues [ARow.mk "a" (some 1), ARow.mk "a" (some 1),
            ARow.mk "b" (some 2), ARow.mk "b" (some 3)] "a").filterMap id = [] ∨
         ((caseValues [ARow.mk "a" (some 1), ARow.mk "a" (some 1),
            ARow.mk "b" (some 2), ARow.mk "b" (some 3)] "a").filterMap id).length = 1 ∨
         ∀ x ∈ (caseValues [ARow.mk "a" (some 1), ARow.mk "a" (some 1),
            ARow.mk "b" (some 2), ARow.mk "b" (some 3)] "a").filterMap id,
           ∀ y ∈ (caseValues [ARow.mk "a" (some 1), ARow.mk "a" (some 1),
            ARow.mk "b" (some 2), ARow.mk "b" (some 3)] "a").filterMap id, x = y)))
    ∧ 0 < (caseIdsOf [ARow.mk "a" (some 1), ARow.mk "a" (some 1),
        ARow.mk "b" (some 2), ARow.mk "b" (some 3)]).length
    ∧ (analyze_attribute_constancy [ARow.mk "a" (some 1), ARow.mk "a" (some 1),
        ARow.mk "b" (some 2), ARow.mk "b" (some 3)] false).percent_constant =
      100 * ((analyze_attribute_constancy [ARow.mk "a" (some 1), ARow.mk "a" (some 1),
          ARow.mk "b" (some 2), ARow.mk "b" (some 3)] false).constant_cases : ℚ) /
        ((caseIdsOf [ARow.mk "a" (some 1), ARow.mk "a" (some 1),
          ARow.mk "b" (some 2), ARow.mk "b" (some 3)]).length : ℚ) :=
  ⟨⟨by decide,
    (percent_constant_spec [ARow.mk "a" (some 1), ARow.mk "a" (some 1),
      ARow.mk "b" (some 2), ARow.mk "b" (some 3)]).1 "a" (by decide)⟩,
   by decide,
   (percent_constant_spec [ARow.mk "a" (some 1), ARow.mk "a" (some 1),
      ARow.mk "b" (some 2), ARow.mk "b" (some 3)]).2.2.2.1 (by decide)⟩

end CheckConstantAttributes

namespace AttributeVisualizations

open CheckConstantAttributes

/-- Level of the threshold chain of classify_attribute_level, expressed as a
function of the percent_constant field of its own result. -/
theorem threshold_chain_level (q : ℚ) :
    (if q ≥ CASE_LEVEL_THRESHOLD then Classification.mk Level.caseLevel q true
     else if q ≥ 50 then Classification.mk Level.mostlyCase q true
     else Classification.mk Level.eventLevel q false).level =
    (if (if q ≥ CASE_LEVEL_THRESHOLD then Classification.mk Level.caseLevel q true
        else if q ≥ 50 then Classification.mk Level.mostlyCase q true
        else Classification.mk Level.eventLevel q false).percent_constant ≥ 80 then
      Level.caseLevel
     else if (if q ≥ CASE_LEVEL_THRESHOLD then Classification.mk Level.caseLevel q true
        else if q ≥ 50 then Classification.mk Level.mostlyCase q true
        else Classification.mk Level.eventLevel q false).percent_constant ≥ 50 then
      Level.mostlyCase
     else Level.eventLevel) := by
  have hpc : (if q ≥ CASE_LEVEL_THRESHOLD then Classification.mk Level.caseLevel q true
      else if q ≥ 50 then Classification.mk Level.mostlyCase q true
      else Classification.mk Level.eventLevel q false).percent_constant = q := by
    unfold CASE_LEVEL_THRESHOLD
    split_ifs <;> rfl
  rw [hpc]
  unfold CASE_LEVEL_THRESHOLD
  split_ifs <;> rfl

/-- C3: the classification level is the deterministic threshold function of
percent_constant (at least 80 gives caseLevel, at least 50 gives mostlyCase,
otherwise eventLevel), and on the case-identifier column the result is
always eventLevel with percent_constant 0, regardless of the table. -/
theorem classification_thresholds_spec {α : Type} [DecidableEq α]
    (rows : List (ARow α)) (isCaseIdColumn : Bool) :
    ((classify_attribute_level rows isCaseIdColumn).level =
      (if (classify_attribute_level rows isCaseIdColumn).percent_constant ≥ 80 then
        Level.caseLevel
       else if (classify_attribute_level rows isCaseIdColumn).percent_constant ≥ 50 then
        Level.mostlyCase
       else Level.eventLevel))
    ∧ (isCaseIdColumn = true →
        (classify_attribute_level rows isCaseIdColumn).level = Level.eventLevel ∧
        (classify_attribute_level rows isCaseIdColumn).percent_constant = 0) := by
  cases isCaseIdColumn with
  | true =>
    refine ⟨?_, fun _ => by simp [classify_attribute_level]⟩
    simp only [classify_attribute_level, if_pos rfl]
    norm_num
  | false =>
    refine ⟨?_, fun h => by simp at h⟩
    simp only [classify_attribute_level, Bool.false_eq_true, if_false]
    exact threshold_chain_level _

/-- C3 witness: on the case-identifier column of a concrete table the result
is eventLevel with percent_constant 0. -/
theorem classification_thresholds_spec_witness :
    (classify_attribute_level [ARow.mk "a" (some 1)] true).level = Level.eventLevel ∧
    (classify_attribute_level [ARow.mk "a" (some 1)] true).percent_constant = 0 :=
  (classification_thresholds_spec [ARow.mk "a" (some 1)] true).2 rfl

end AttributeVisualizations

namespace CheckConstantAttributes

/-- C10: the analysis flags a column as constant exactly when its
percent_constant equals 100, and a column that is constant in every case but
one is reported as variable. -/
theorem is_constant_iff_percent_100 {α : Type} [DecidableEq α]
    (rows : List (ARow α)) (isCaseIdColumn : Bool) :
    ((analyze_attribute_constancy rows isCaseIdColumn).is_constant = true ↔
      (analyze_attribute_constancy rows isCaseIdColumn).percent_constant = 100)
    ∧ (isCaseIdColumn = false →
        0 < (analyze_attribute_constancy rows isCaseIdColumn).total_cases →
        (analyze_attribute_constancy rows isCaseIdColumn).constant_cases =
          (analyze_attribute_constancy rows isCaseIdColumn).total_cases - 1 →
        (analyze_attribute_constancy rows isCaseIdColumn).is_constant = false) := by
  cases isCaseIdColumn with
  | true =>
    refine ⟨⟨fun h => ?_, fun h => ?_⟩, fun h => by simp at h⟩
    · simp [analyze_attribute_constancy] at h
    · norm_num [analyze_attribute_constancy] at h
  | false =>
    have hproj := analyze_false_eq rows
    constructor
    · rw [hproj]
      simp only [decide_eq_true_eq]
    · intro _ hpos hcc
      simp only [hproj] at hpos hcc ⊢
      rw [decide_eq_false_iff_not, if_pos hpos]
      intro heq
      have hne : ((caseIdsOf rows).length : ℚ) ≠ 0 := by
        exact_mod_cast Nat.pos_iff_ne_zero.mp hpos
      have hkn : (((caseIdsOf rows).filter
          (fun c => is_constant_in_case (caseValues rows c))).length : ℚ) =
          ((caseIdsOf rows).length : ℚ) := by
        field_simp at heq
        linarith
      have hkn2 : ((caseIdsOf rows).filter
          (fun c => is_constant_in_case (caseValues rows c))).length =
          (caseIdsOf rows).length := by exact_mod_cast hkn
      omega

/-- C10 witness: a concrete table with two cases where the column is constant
in exactly one of them is reported as variable. -/
theorem is_constant_iff_percent_100_witness :
    (analyze_attribute_constancy [ARow.mk "a" (some 1), ARow.mk "b" (some 2),
        ARow.mk "b" (some 3)] false).constant_cases =
      (analyze_attribute_constancy [ARow.mk "a" (some 1), ARow.mk "b" (some 2),
        ARow.mk "b" (some 3)] false).total_cases - 1
    ∧ 0 < (analyze_attribute_constancy [ARow.mk "a" (some 1), ARow.mk "b" (some 2),
        ARow.mk "b" (some 3)] false).total_cases
    ∧ (analyze_attribute_constancy [ARow.mk "a" (some 1), ARow.mk "b" (some 2),
        ARow.mk "b" (some 3)] false).is_constant = false :=
  ⟨by decide, by decide,
    (is_constant_iff_percent_100 [ARow.mk "a" (some 1), ARow.mk "b" (some 2),
      ARow.mk "b" (some 3)] false).2 rfl (by decide) (by decide)⟩

end CheckConstantAttributes

namespace VariantsLifecycleAnalysis

/-! ## TraceBuilder and VariantIndex: src/variants_lifecycle_analysis.py

A dataframe row carries the case id, the activity, the optional lifecycle
phase and the optional timestamp (pandas NaT becomes none).
df.sort_values([CASE_ID_COLUMN, TIMESTAMP_COLUMN]) is a stable
lexicographic sort with missing timestamps last (na_position default);
groupby then yields one trace per case, and collections.Counter counts
traces in first-insertion order. -/

/-- One row of the event-log table. -/
structure VRow where
  caseId : String
  activity : String
  lifecycle : Option String
  timestamp : Option Int
deriving DecidableEq

/-- Embedding of create_combined_activity_column applied to one row:
activity and lifecycle joined when the lifecycle is present, the bare
activity otherwise. -/
def combined_activity (r : VRow) : String :=
  match r.lifecycle with
  | some lc => r.activity ++ " - " ++ lc
  | none => r.activity

/-- Timestamp comparison with missing values last. -/
def tsLe : Option Int → Option Int → Prop
  | some a, some b => a ≤ b
  | some _, none => True
  | none, some _ => False
  | none, none => True

instance tsLe.instDecidable : ∀ (a b : Option Int), Decidable (tsLe a b)
  | some a, some b => inferInstanceAs (Decidable (a ≤ b))
  | some _, none => Decidable.isTrue trivial
  | none, some _ => Decidable.isFalse (fun h => h)
  | none, none => Decidable.isTrue trivial

theorem tsLe_refl (a : Option Int) : tsLe a a := by
  cases a <;> simp [tsLe]

theorem tsLe_trans {a b c : Option Int} (hab : tsLe a b) (hbc : tsLe b c) : tsLe a c := by
  cases a <;> cases b <;> cases c <;> (simp_all [tsLe]; try omega)

theorem tsLe_total (a b : Option Int) : tsLe a b ∨ tsLe b a := by
  cases a <;> cases b <;> (simp [tsLe]; try omega)

/-- Row ordering of df.sort_values([CASE_ID_COLUMN, TIMESTAMP_COLUMN]):
case id first, then timestamp with missing timestamps last. -/
def rowLe (r s : VRow) : Prop :=
  r.caseId < s.caseId ∨ (r.caseId = s.caseId ∧ tsLe r.timestamp s.timestamp)

instance rowLe.instDecidable : DecidableRel rowLe := fun r s =>
  decidable_of_iff (r.caseId.toList < s.caseId.toList ∨
      (r.caseId = s.caseId ∧ tsLe r.timestamp s.timestamp))
    (by rw [rowLe, String.lt_iff_toList_lt])

instance rowLe.instIsTotal : IsTotal VRow rowLe := by
  constructor
  intro a b
  rcases lt_trichotomy a.caseId b.caseId with h | h | h
  · exact Or.inl (Or.inl h)
  · rcases tsLe_total a.timestamp b.timestamp with ht | ht
    · exact Or.inl (Or.inr ⟨h, ht⟩)
    · exact Or.inr (Or.inr ⟨h.symm, ht⟩)
  · exact Or.inr (Or.inl h)

instance rowLe.instIsTrans : IsTrans VRow rowLe := by
  constructor
  rintro a b c (hab | ⟨hab, hts1⟩) (hbc | ⟨hbc, hts2⟩)
  · exact Or.inl (lt_trans hab hbc)
  · exact Or.inl (hbc ▸ hab)
  · exact Or.inl (hab ▸ hbc)
  · exact Or.inr ⟨hab.trans hbc, tsLe_trans hts1 hts2⟩

/-- The sorting step of compute_variants. -/
def sortRows (rows : List VRow) : List VRow := rows.insertionSort rowLe

/-- The traces mapping produced by
df_sorted.groupby(CASE_ID_COLUMN)["combined_activity"].apply(tuple):
one ordered label sequence per distinct case id. -/
def tracesOf (rows : List VRow) : List (String × List String) :=
  (dedupFirst ((sortRows rows).map VRow.caseId)).map
    (fun c => (c, ((sortRows rows).filter
      (fun r => decide (r.caseId = c))).map combined_activity))

/-- Embedding of collections.Counter(xs).items(): distinct elements in
first-insertion order, each with its multiplicity. -/
def counterItems {κ : Type} [DecidableEq κ] (xs : List κ) : List (κ × Nat) :=
  (dedupFirst xs).map (fun k => (k, xs.count k))

/-- Descending order on counts used by
sorted(counts.items(), key=lambda x: x[1], reverse=True); Python sorted is
stable also with reverse=True. -/
def countDescLe {κ : Type} (p q : κ × Nat) : Prop := q.2 ≤ p.2

instance countDescLe.instDecidable {κ : Type} :
    DecidableRel (countDescLe (κ := κ)) := fun p q =>
  inferInstanceAs (Decidable (q.2 ≤ p.2))

instance countDescLe.instIsTotal {κ : Type} : IsTotal (κ × Nat) countDescLe :=
  ⟨fun a b => le_total b.2 a.2⟩

instance countDescLe.instIsTrans {κ : Type} : IsTrans (κ × Nat) countDescLe :=
  ⟨fun _ _ _ hab hbc => le_trans hbc hab⟩

/-- Embedding of compute_variants: traces counted by Counter, then sorted by
count in descending order. -/
def compute_variants (rows : List VRow) : List (List String × Nat) :=
  (counterItems ((tracesOf rows).map Prod.snd)).insertionSort countDescLe

/-- C1: the variant counts sum to the number of entries of the traces
mapping; the keys of the traces mapping are exactly the distinct case ids of
the table, without duplicates; the variant keys are distinct and every
case's trace is one of them, so the variants partition the case set. -/
theorem variant_counts_partition_spec (rows : List VRow) :
    ((compute_variants rows).map Prod.snd).sum = (tracesOf rows).length
    ∧ ((tracesOf rows).map Prod.fst).Nodup
    ∧ (∀ c, c ∈ (tracesOf rows).map Prod.fst ↔ c ∈ rows.map VRow.caseId)
    ∧ ((compute_variants rows).map Prod.fst).Nodup
    ∧ (∀ p, p ∈ tracesOf rows → p.2 ∈ (compute_variants rows).map Prod.fst) := by
  have hperm : List.Perm (compute_variants rows)
      (counterItems ((tracesOf rows).map Prod.snd)) :=
    List.perm_insertionSort countDescLe _
  have hkeys : (tracesOf rows).map Prod.fst =
      dedupFirst ((sortRows rows).map VRow.caseId) := by
    simp only [tracesOf, List.map_map]
    exact List.map_id _
  have hckeys : (counterItems ((tracesOf rows).map Prod.snd)).map Prod.fst =
      dedupFirst ((tracesOf rows).map Prod.snd) := by
    simp only [counterItems, List.map_map]
    exact List.map_id _
  refine ⟨?_, ?_, ?_, ?_, ?_⟩
  · rw [(hperm.map Prod.snd).sum_eq]
    have h2 := sum_count_dedupFirst ((tracesOf rows).map Prod.snd)
    refine Eq.trans ?_ (h2.trans (List.length_map _ _))
    simp only [counterItems, List.map_map]
    rfl
  · rw [hkeys]
    exact nodup_dedupFirst _
  · intro c
    rw [hkeys, mem_dedupFirst]
    exact ((List.perm_insertionSort rowLe rows).map VRow.caseId).mem_iff
  · rw [(hperm.map Prod.fst).nodup_iff, hckeys]
    exact nodup_dedupFirst _
  · intro p hp
    rw [(hperm.map Prod.fst).mem_iff, hckeys, mem_dedupFirst]
    exact List.mem_map_of_mem Prod.snd hp

/-- C1 witness: the spec scenario with cases C1 and C2 sharing the trace
A, B and case C3 with the singleton trace A. -/
theorem variant_counts_partition_spec_witness :
    ("C1", ["A", "B"]) ∈ tracesOf [VRow.mk "C1" "A" none (some 1),
        VRow.mk "C1" "B" none (some 2), VRow.mk "C2" "A" none (some 1),
        VRow.mk "C2" "B" none (some 2), VRow.mk "C3" "A" none (some 1)]
    ∧ ["A", "B"] ∈ (compute_variants [VRow.mk "C1" "A" none (some 1),
        VRow.mk "C1" "B" none (some 2), VRow.mk "C2" "A" none (some 1),
        VRow.mk "C2" "B" none (some 2), VRow.mk "C3" "A" none (some 1)]).map Prod.fst :=
  ⟨by decide,
    (variant_counts_partition_spec [VRow.mk "C1" "A" none (some 1),
      VRow.mk "C1" "B" none (some 2), VRow.mk "C2" "A" none (some 1),
      VRow.mk "C2" "B" none (some 2),
      VRow.mk "C3" "A" none (some 1)]).2.2.2.2 ("C1", ["A", "B"]) (by decide)⟩

/-- C4: the sorting step of the trace builder permutes the rows, orders each
case's rows by ascending timestamp, leaves every class of rows with the same
case id and the same (possibly missing) timestamp in its original relative
order, and is idempotent, so a second run reproduces the same traces. -/
theorem trace_builder_stable_sort_spec (rows : List VRow) :
    List.Perm (sortRows rows) rows
    ∧ (∀ c : String, ((sortRows rows).filter
        (fun r => decide (r.caseId = c))).Pairwise
          (fun r s => tsLe r.timestamp s.timestamp))
    ∧ (∀ (c : String) (t : Option Int),
        (sortRows rows).filter (fun r => decide (r.caseId = c ∧ r.timestamp = t)) =
          rows.filter (fun r => decide (r.caseId = c ∧ r.timestamp = t)))
    ∧ sortRows (sortRows rows) = sortRows rows := by
  have hsorted : (sortRows rows).Pairwise rowLe :=
    List.sorted_insertionSort rowLe rows
  refine ⟨List.perm_insertionSort rowLe rows, ?_, ?_, ?_⟩
  · intro c
    have hf : ((sortRows rows).filter (fun r => decide (r.caseId = c))).Pairwise rowLe :=
      hsorted.filter _
    refine List.Pairwise.imp_of_mem ?_ hf
    intro r s hr hs hrs
    have hrc : r.caseId = c := of_decide_eq_true (List.mem_filter.mp hr).2
    have hsc : s.caseId = c := of_decide_eq_true (List.mem_filter.mp hs).2
    rcases hrs with hlt | ⟨-, hts⟩
    · rw [hrc, hsc] at hlt
      exact absurd hlt (lt_irrefl c)
    · exact hts
  · intro c t
    apply filter_insertionSort_eq
    intro a b ha hb
    have ha2 := of_decide_eq_true ha
    have hb2 := of_decide_eq_true hb
    exact Or.inr ⟨ha2.1.trans hb2.1.symm, by rw [ha2.2, hb2.2]; exact tsLe_refl t⟩
  · exact List.Sorted.insertionSort_eq hsorted

/-- Coverage of the most common variant, from print_most_used_variants.py
line 54: the expression accesses the first entry of the index without a
guard, so on an empty index it raises an IndexError, embedded here as none;
a zero total with a nonempty index would raise a ZeroDivisionError, also
none. -/
def coverage_top_variant {κ : Type} (variantCounts : List (κ × Nat)) : Option ℚ :=
  match variantCounts.head? with
  | none => none
  | some p =>
    if (variantCounts.map Prod.snd).sum = 0 then none
    else some ((p.2 : ℚ) / (((variantCounts.map Prod.snd).sum : ℚ)) * 100)

/-- Coverage of the top n variants, from print_most_used_variants.py lines
77 to 80: the whole summary block runs only under the nonemptiness test of
line 75 and reports nothing on an empty index (none here); a zero total
inside the block would raise a ZeroDivisionError, also none. -/
def coverage_top_n {κ : Type} (variantCounts : List (κ × Nat)) (n : Nat) : Option ℚ :=
  match variantCounts with
  | [] => none
  | _ :: _ =>
    if (variantCounts.map Prod.snd).sum = 0 then none
    else some ((((variantCounts.take n).map Prod.snd).sum : ℚ) /
      (((variantCounts.map Prod.snd).sum : ℚ)) * 100)

/-- Counting expression of print_most_used_variants.py line 83: number of
variants appearing only once. -/
def singleton_count {κ : Type} (variantCounts : List (κ × Nat)) : Nat :=
  (variantCounts.filter (fun p => decide (p.2 = 1))).length

/-- Counting expression of print_most_used_variants.py line 88: number of
variants with count at most the threshold. -/
def tail_count {κ : Type} (variantCounts : List (κ × Nat)) (threshold : Nat) : Nat :=
  (variantCounts.filter (fun p => decide (p.2 ≤ threshold))).length

/-- C9: on an empty table the variant index itself is built without error
and is empty, but the derived statistics do not all report zero: the
top-variant coverage raises an IndexError (none) and the top-n coverage
block is skipped (none), while the singleton and tail counting expressions
would evaluate to zero but are inside the skipped block and never
reported. -/
theorem empty_variant_index_behavior :
    compute_variants [] = []
    ∧ coverage_top_variant (compute_variants []) = none
    ∧ (∀ n, coverage_top_n (compute_variants []) n = none)
    ∧ singleton_count (compute_variants []) = 0
    ∧ (∀ t, tail_count (compute_variants []) t = 0) := by
  exact ⟨rfl, rfl, fun n => rfl, rfl, fun t => rfl⟩

end VariantsLifecycleAnalysis

/-! ## Shared numeric orders for the arrival analyses -/

/-- Order on integer timestamps. -/
def intLe (a b : Int) : Prop := a ≤ b

instance intLe.instDecidable : DecidableRel intLe := fun a b =>
  inferInstanceAs (Decidable (a ≤ b))

instance intLe.instIsTotal : IsTotal Int intLe := ⟨fun a b => le_total a b⟩

instance intLe.instIsTrans : IsTrans Int intLe := ⟨fun _ _ _ h1 h2 => le_trans h1 h2⟩

/-- Order on rational gap values. -/
def ratLe (a b : ℚ) : Prop := a ≤ b

instance ratLe.instDecidable : DecidableRel ratLe := fun a b =>
  inferInstanceAs (Decidable (a ≤ b))

instance ratLe.instIsTotal : IsTotal ℚ ratLe := ⟨fun a b => le_total a b⟩

instance ratLe.instIsTrans : IsTrans ℚ ratLe := ⟨fun _ _ _ h1 h2 => le_trans h1 h2⟩

/-- Order on case-id strings, decided through the character lists so that it
evaluates inside the kernel. -/
def strLe (a b : String) : Prop := a ≤ b

instance strLe.instDecidable : DecidableRel strLe := fun a b =>
  decidable_of_iff (a.toList ≤ b.toList) (String.le_iff_toList_le).symm

instance strLe.instIsTotal : IsTotal String strLe := ⟨fun a b => le_total a b⟩

instance strLe.instIsTrans : IsTrans String strLe := ⟨fun _ _ _ h1 h2 => le_trans h1 h2⟩

namespace PendingCaseArrivalAnalysis

/-! ## ArrivalAnalyzer: src/pending_case_arrival_analysis.py

A row of the reduced event table carries the case id, the activity label
and the timestamp; the loader coerces every timestamp with pd.to_datetime,
so timestamps are total here (integer seconds). -/

/-- One row of the event-log table as used by the arrival analysis. -/
structure ERow where
  caseId : String
  activity : String
  timestamp : Int
deriving DecidableEq

/-- Timestamp order on rows (df.sort_values(TIMESTAMP_KEY)). -/
def tsRowLe (r s : ERow) : Prop := r.timestamp ≤ s.timestamp

instance tsRowLe.instDecidable : DecidableRel tsRowLe := fun r s =>
  inferInstanceAs (Decidable (r.timestamp ≤ s.timestamp))

instance tsRowLe.instIsTotal : IsTotal ERow tsRowLe :=
  ⟨fun a b => le_total a.timestamp b.timestamp⟩

instance tsRowLe.instIsTrans : IsTrans ERow tsRowLe :=
  ⟨fun _ _ _ h1 h2 => le_trans h1 h2⟩

/-- Timestamp order on (case id, arrival timestamp) pairs. -/
def sndTsLe (p q : String × Int) : Prop := p.2 ≤ q.2

instance sndTsLe.instDecidable : DecidableRel sndTsLe := fun p q =>
  inferInstanceAs (Decidable (p.2 ≤ q.2))

instance sndTsLe.instIsTotal : IsTotal (String × Int) sndTsLe :=
  ⟨fun a b => le_total a.2 b.2⟩

instance sndTsLe.instIsTrans : IsTrans (String × Int) sndTsLe :=
  ⟨fun _ _ _ h1 h2 => le_trans h1 h2⟩

/-- Embedding of select_open_cases: unique case ids of rows carrying the
create activity, minus the unique case ids of rows carrying an exclusion
activity; pd.Index.difference returns the (sorted) set difference. -/
def select_open_cases (rows : List ERow) (createActivity : String)
    (exclusionActivities : List String) : List String :=
  let createCases := dedupFirst
    ((rows.filter (fun r => decide (r.activity = createActivity))).map ERow.caseId)
  let excludedCases := dedupFirst
    ((rows.filter (fun r => decide (r.activity ∈ exclusionActivities))).map ERow.caseId)
  (createCases.filter (fun c => decide (c ∉ excludedCases))).insertionSort strLe

/-- Embedding of build_arrival_dataframe: restrict to the create-activity
rows of the given cases, sort by timestamp, take the first row per case
(groupby(as_index=False).first() sorts the group keys), keep the case id
and the timestamp, and sort the result by timestamp. -/
def build_arrival_dataframe (rows : List ERow) (caseIds : List String)
    (createActivity : String) : List (String × Int) :=
  let relevant := rows.filter
    (fun r => decide (r.caseId ∈ caseIds) && decide (r.activity = createActivity))
  let sortedRel := relevant.insertionSort tsRowLe
  let firstEvents := ((dedupFirst (sortedRel.map ERow.caseId)).insertionSort strLe).filterMap
    (fun c => (sortedRel.find? (fun r => decide (r.caseId = c))).map
      (fun r => (c, r.timestamp)))
  firstEvents.insertionSort sndTsLe

/-- C5: a case id belongs to the selected cohort exactly when some row of
that case carries the create activity and no row of that case carries an
exclusion activity. -/
theorem select_cohort_spec (rows : List ERow) (createActivity : String)
    (exclusionActivities : List String) (c : String) :
    c ∈ select_open_cases rows createActivity exclusionActivities ↔
      ((∃ r ∈ rows, r.caseId = c ∧ r.activity = createActivity)
        ∧ ∀ r ∈ rows, r.caseId = c → r.activity ∉ exclusionActivities) := by
  simp only [select_open_cases]
  rw [List.mem_insertionSort, List.mem_filter]
  constructor
  · rintro ⟨hcreate, hnotex⟩
    rw [mem_dedupFirst] at hcreate
    obtain ⟨r, hr, hrc⟩ := List.mem_map.mp hcreate
    obtain ⟨hrrows, hract⟩ := List.mem_filter.mp hr
    refine ⟨⟨r, hrrows, hrc, of_decide_eq_true hract⟩, ?_⟩
    intro s hs hsc hsex
    have hmem : c ∈ dedupFirst ((rows.filter
        (fun r => decide (r.activity ∈ exclusionActivities))).map ERow.caseId) := by
      rw [mem_dedupFirst]
      exact List.mem_map.mpr ⟨s, List.mem_filter.mpr ⟨hs, decide_eq_true hsex⟩, hsc⟩
    exact (of_decide_eq_true hnotex) hmem
  · rintro ⟨⟨r, hrrows, hrc, hract⟩, hnone⟩
    constructor
    · rw [mem_dedupFirst]
      exact List.mem_map.mpr ⟨r, List.mem_filter.mpr ⟨hrrows, decide_eq_true hract⟩, hrc⟩
    · apply decide_eq_true
      intro hmem
      rw [mem_dedupFirst] at hmem
      obtain ⟨s, hs, hsc⟩ := List.mem_map.mp hmem
      obtain ⟨hsrows, hsex⟩ := List.mem_filter.mp hs
      exact hnone s hsrows hsc (of_decide_eq_true hsex)

/-- In a timestamp-sorted row list, find? returns a row whose timestamp is
minimal among the rows satisfying the predicate. -/
theorem find?_timestamp_min (l : List ERow) (hs : l.Pairwise tsRowLe)
    (p : ERow → Bool) (r : ERow) (h : l.find? p = some r) :
    ∀ s ∈ l, p s → r.timestamp ≤ s.timestamp := by
  induction l with
  | nil => simp at h
  | cons a l ih =>
    by_cases hpa : p a
    · rw [List.find?_cons_of_pos l hpa] at h
      have ha : a = r := Option.some.inj h
      subst ha
      intro s hsmem hps
      rcases List.mem_cons.mp hsmem with rfl | hsl
      · exact le_refl _
      · exact (List.pairwise_cons.mp hs).1 s hsl
    · rw [List.find?_cons_of_neg l hpa] at h
      intro s hsmem hps
      rcases List.mem_cons.mp hsmem with rfl | hsl
      · exact absurd hps hpa
      · exact ih (List.pairwise_cons.mp hs).2 h s hsl hps

/-- When every key has a matching row, the keys of the grouped first events
are exactly the given keys. -/
theorem map_fst_filterMap_find (keys : List String) (l : List ERow)
    (hk : ∀ c ∈ keys, ∃ r ∈ l, r.caseId = c) :
    (keys.filterMap (fun c => (l.find? (fun r => decide (r.caseId = c))).map
      (fun r => (c, r.timestamp)))).map Prod.fst = keys := by
  induction keys with
  | nil => rfl
  | cons c ks ih =>
    obtain ⟨r0, hr0, hc0⟩ := hk c (List.mem_cons_self c ks)
    have hsome : (l.find? (fun r => decide (r.caseId = c))).isSome := by
      rw [List.find?_isSome]
      exact ⟨r0, hr0, decide_eq_true hc0⟩
    obtain ⟨r1, hr1⟩ := Option.isSome_iff_exists.mp hsome
    have hfc : ((l.find? (fun r => decide (r.caseId = c))).map
        (fun r => (c, r.timestamp))) = some (c, r1.timestamp) := by
      rw [hr1]
      rfl
    simp only [List.filterMap_cons, hfc, List.map_cons]
    rw [ih (fun x hx => hk x (List.mem_cons_of_mem c hx))]

/-- C6: the arrival series has exactly one entry per cohort case that has
the anchor activity (cases without it are silently dropped), each entry
carries the timestamp of the earliest anchor occurrence of its case, and
the series is sorted by non-decreasing timestamp. -/
theorem arrival_series_spec (rows : List ERow) (caseIds : List String)
    (createActivity : String) :
    ((build_arrival_dataframe rows caseIds createActivity).map Prod.fst).Nodup
    ∧ (∀ c, c ∈ (build_arrival_dataframe rows caseIds createActivity).map Prod.fst ↔
        (c ∈ caseIds ∧ ∃ r ∈ rows, r.caseId = c ∧ r.activity = createActivity))
    ∧ (∀ p ∈ build_arrival_dataframe rows caseIds createActivity,
        (∃ r ∈ rows, r.caseId = p.1 ∧ r.activity = createActivity ∧ r.timestamp = p.2)
        ∧ ∀ r ∈ rows, r.caseId = p.1 → r.activity = createActivity →
            p.2 ≤ r.timestamp)
    ∧ ((build_arrival_dataframe rows caseIds createActivity).map Prod.snd).Pairwise
        (fun a b => a ≤ b) := by
  have hrelmem : ∀ r : ERow, r ∈ rows.filter
      (fun r => decide (r.caseId ∈ caseIds) && decide (r.activity = createActivity)) ↔
      (r ∈ rows ∧ r.caseId ∈ caseIds ∧ r.activity = createActivity) := by
    intro r
    rw [List.mem_filter]
    constructor
    · rintro ⟨h1, h2⟩
      rw [Bool.and_eq_true] at h2
      exact ⟨h1, of_decide_eq_true h2.1, of_decide_eq_true h2.2⟩
    · rintro ⟨h1, h2, h3⟩
      exact ⟨h1, by rw [Bool.and_eq_true]; exact ⟨decide_eq_true h2, decide_eq_true h3⟩⟩
  have hsortmem : ∀ r : ERow, r ∈ (rows.filter
      (fun r => decide (r.caseId ∈ caseIds) && decide (r.activity = createActivity))).insertionSort tsRowLe ↔
      (r ∈ rows ∧ r.caseId ∈ caseIds ∧ r.activity = createActivity) := by
    intro r
    rw [List.mem_insertionSort]
    exact hrelmem r
  have hkeysmem : ∀ c, c ∈ ((dedupFirst (((rows.filter
      (fun r => decide (r.caseId ∈ caseIds) && decide (r.activity = createActivity))).insertionSort tsRowLe).map ERow.caseId)).insertionSort strLe) ↔
      ∃ r, (r ∈ rows ∧ r.caseId ∈ caseIds ∧ r.activity = createActivity) ∧ r.caseId = c := by
    intro c
    rw [List.mem_insertionSort, mem_dedupFirst, List.mem_map]
    constructor
    · rintro ⟨r, hr, hrc⟩
      exact ⟨r, (hsortmem r).mp hr, hrc⟩
    · rintro ⟨r, hr, hrc⟩
      exact ⟨r, (hsortmem r).mpr hr, hrc⟩
  have hkey_exists : ∀ c ∈ ((dedupFirst (((rows.filter
      (fun r => decide (r.caseId ∈ caseIds) && decide (r.activity = createActivity))).insertionSort tsRowLe).map ERow.caseId)).insertionSort strLe),
      ∃ r ∈ ((rows.filter
        (fun r => decide (r.caseId ∈ caseIds) && decide (r.activity = createActivity))).insertionSort tsRowLe),
        r.caseId = c := by
    intro c hc
    obtain ⟨r, hr, hrc⟩ := (hkeysmem c).mp hc
    exact ⟨r, (hsortmem r).mpr hr, hrc⟩
  have hfst := map_fst_filterMap_find _ _ hkey_exists
  have hbuild : build_arrival_dataframe rows caseIds createActivity =
      (((dedupFirst (((rows.filter
        (fun r => decide (r.caseId ∈ caseIds) && decide (r.activity = createActivity))).insertionSort tsRowLe).map ERow.caseId)).insertionSort strLe).filterMap
        (fun c => ((((rows.filter
          (fun r => decide (r.caseId ∈ caseIds) && decide (r.activity = createActivity))).insertionSort tsRowLe)).find?
            (fun r => decide (r.caseId = c))).map
          (fun r => (c, r.timestamp)))).insertionSort sndTsLe := rfl
  have hperm : List.Perm (build_arrival_dataframe rows caseIds createActivity)
      (((dedupFirst (((rows.filter
        (fun r => decide (r.caseId ∈ caseIds) && decide (r.activity = createActivity))).insertionSort tsRowLe).map ERow.caseId)).insertionSort strLe).filterMap
        (fun c => ((((rows.filter
          (fun r => decide (r.caseId ∈ caseIds) && decide (r.activity = createActivity))).insertionSort tsRowLe)).find?
            (fun r => decide (r.caseId = c))).map
          (fun r => (c, r.timestamp)))) := by
    rw [hbuild]
    exact List.perm_insertionSort sndTsLe _
  have hknodup : ((dedupFirst (((rows.filter
      (fun r => decide (r.caseId ∈ caseIds) && decide (r.activity = createActivity))).insertionSort tsRowLe).map ERow.caseId)).insertionSort strLe).Nodup :=
    ((List.perm_insertionSort strLe _).nodup_iff).mpr (nodup_dedupFirst _)
  refine ⟨?_, ?_, ?_, ?_⟩
  · rw [((hperm.map Prod.fst).nodup_iff), hfst]
    exact hknodup
  · intro c
    rw [(hperm.map Prod.fst).mem_iff, hfst, hkeysmem c]
    constructor
    · rintro ⟨r, ⟨hr1, hr2, hr3⟩, hrc⟩
      exact ⟨hrc ▸ hr2, r, hr1, hrc, hr3⟩
    · rintro ⟨hc, r, hr1, hrc, hr3⟩
      exact ⟨r, ⟨hr1, hrc ▸ hc, hr3⟩, hrc⟩
  · intro p hp
    have hp2 := List.mem_filterMap.mp (hperm.mem_iff.mp hp)
    obtain ⟨c, hckeys, hmap⟩ := hp2
    obtain ⟨r, hfind, hpr⟩ := Option.map_eq_some'.mp hmap
    have hrc0 := List.find?_some hfind
    have hrc : r.caseId = c := of_decide_eq_true hrc0
    have hrmem := List.mem_of_find?_eq_some hfind
    obtain ⟨hrrows, hrin, hract⟩ := (hsortmem r).mp hrmem
    subst hpr
    constructor
    · exact ⟨r, hrrows, hrc, hract, rfl⟩
    · intro s hs hsc hsact
      have hsmem : s ∈ ((rows.filter
          (fun r => decide (r.caseId ∈ caseIds) && decide (r.activity = createActivity))).insertionSort tsRowLe) := by
        rw [hsortmem s]
        refine ⟨hs, ?_, hsact⟩
        rw [hsc]
        simp only
        rw [← hrc]
        exact hrin
      exact find?_timestamp_min _
        (List.sorted_insertionSort tsRowLe _) _ r hfind s hsmem
        (decide_eq_true (by rw [hsc]))
  · rw [hbuild]
    exact List.pairwise_map.mpr (List.sorted_insertionSort sndTsLe _)

/-- C6 witness: in a concrete table, case X has anchor rows at timestamps 5
and 3, and the series entry for X carries the earliest timestamp 3. -/
theorem arrival_series_spec_witness :
    ("X", (3 : Int)) ∈ build_arrival_dataframe
      [ERow.mk "X" "Create" 5, ERow.mk "X" "Create" 3, ERow.mk "Y" "Review" 1]
      ["X"] "Create"
    ∧ ((∃ r ∈ [ERow.mk "X" "Create" 5, ERow.mk "X" "Create" 3, ERow.mk "Y" "Review" 1],
          r.caseId = "X" ∧ r.activity = "Create" ∧ r.timestamp = 3)
        ∧ ∀ r ∈ [ERow.mk "X" "Create" 5, ERow.mk "X" "Create" 3, ERow.mk "Y" "Review" 1],
            r.caseId = "X" → r.activity = "Create" → (3 : Int) ≤ r.timestamp) :=
  ⟨by decide,
    (arrival_series_spec
      [ERow.mk "X" "Create" 5, ERow.mk "X" "Create" 3, ERow.mk "Y" "Review" 1]
      ["X"] "Create").2.2.1 ("X", 3) (by decide)⟩

end PendingCaseArrivalAnalysis

/-- Consecutive differences of a list of timestamps
(pandas Series.diff().dropna(): each element minus its predecessor). -/
def consecDiffs (l : List Int) : List Int := l.zipWith (fun a b => b - a) l.tail

theorem consecDiffs_sum : ∀ (l : List Int), l ≠ [] →
    (consecDiffs l).sum = l.getLast?.getD 0 - l.head?.getD 0
  | [], h => absurd rfl h
  | [_], _ => by simp [consecDiffs]
  | a :: b :: t, _ => by
    have ih := consecDiffs_sum (b :: t) (by simp)
    have hstep : consecDiffs (a :: b :: t) = (b - a) :: consecDiffs (b :: t) := rfl
    rw [hstep, List.sum_cons, ih, List.getLast?_cons_cons]
    simp only [List.head?_cons, Option.getD_some]
    ring

theorem consecDiffs_length (l : List Int) :
    (consecDiffs l).length = l.length - 1 := by
  rw [consecDiffs, List.length_zipWith, List.length_tail]
  omega

namespace PendingCaseArrivalAnalysis

/-- Modelled from the spec: pm4py.get_case_arrival_average is not part of
the repository sources (the repository only vendors pm4py examples and
tests), and §4.4 of the spec defines inter_arrival_average as
(last_timestamp − first_timestamp) / (count − 1) seconds when the arrival
series has at least two timestamps, and 0.0 otherwise.  The argument is the
timestamp-sorted arrival series. -/
def get_case_arrival_average (series : List Int) : ℚ :=
  if series.length < 2 then 0
  else ((series.getLast?.getD 0 - series.head?.getD 0 : Int) : ℚ) /
    ((series.length : ℚ) - 1)

/-- Embedding of compute_pm4py_arrival_average: an empty reduced dataframe
returns 0.0 before pm4py is consulted; otherwise the case arrival
timestamps, sorted, are handed to the (spec-modelled) pm4py average. -/
def compute_pm4py_arrival_average (arrivalRows : List (String × Int)) : ℚ :=
  if arrivalRows = [] then 0
  else get_case_arrival_average ((arrivalRows.map Prod.snd).insertionSort intLe)

/-- C7: with at least two arrivals the average is
(last − first) / (count − 1), which also equals the mean of the consecutive
gaps; with fewer than two arrivals the result is 0.0 rather than an error,
and the empty reduced dataframe short-circuits to 0.0 as well. -/
theorem inter_arrival_average_spec (series : List Int) :
    (2 ≤ series.length →
      get_case_arrival_average series =
        ((series.getLast?.getD 0 - series.head?.getD 0 : Int) : ℚ) /
          ((series.length : ℚ) - 1))
    ∧ (2 ≤ series.length →
      get_case_arrival_average series =
        ((consecDiffs series).sum : ℚ) / ((consecDiffs series).length : ℚ))
    ∧ (series.length < 2 → get_case_arrival_average series = 0)
    ∧ compute_pm4py_arrival_average [] = 0 := by
  refine ⟨?_, ?_, ?_, rfl⟩
  · intro h
    rw [get_case_arrival_average, if_neg (by omega)]
  · intro h
    rw [get_case_arrival_average, if_neg (by omega)]
    have hne : series ≠ [] := by
      intro he
      rw [he] at h
      simp at h
    rw [consecDiffs_sum series hne, consecDiffs_length]
    have hcast : (((series.length - 1 : ℕ)) : ℚ) = (series.length : ℚ) - 1 := by
      have : 1 ≤ series.length := by omega
      push_cast [Nat.cast_sub this]
      ring
    rw [hcast]
  · intro h
    rw [get_case_arrival_average, if_pos h]

/-- C7 witness: arrivals at 0, 100 and 300 seconds give the average
(300 − 0) / 2 = 150 seconds. -/
theorem inter_arrival_average_spec_witness :
    2 ≤ ([0, 100, 300] : List Int).length
    ∧ get_case_arrival_average [0, 100, 300] =
        ((([0, 100, 300] : List Int).getLast?.getD 0 -
            ([0, 100, 300] : List Int).head?.getD 0 : Int) : ℚ) /
          ((([0, 100, 300] : List Int).length : ℚ) - 1)
    ∧ get_case_arrival_average [0, 100, 300] = 150 :=
  ⟨by decide, (inter_arrival_average_spec [0, 100, 300]).1 (by decide),
    by norm_num [get_case_arrival_average]⟩

end PendingCaseArrivalAnalysis

/-- Running minimum of a list of rationals via foldr: it is the seed or a
list element, it is below the seed, and it is below every element. -/
theorem foldr_min_spec (xs : List ℚ) (a : ℚ) :
    (xs.foldr min a = a ∨ xs.foldr min a ∈ xs)
    ∧ xs.foldr min a ≤ a ∧ ∀ g ∈ xs, xs.foldr min a ≤ g := by
  induction xs with
  | nil => simp
  | cons x xs ih =>
    obtain ⟨hmem, hle, hall⟩ := ih
    have hfold : (x :: xs).foldr min a = min x (xs.foldr min a) := rfl
    refine ⟨?_, ?_, ?_⟩
    · rcases le_total x (xs.foldr min a) with h | h
      · rw [hfold, min_eq_left h]
        exact Or.inr (List.mem_cons_self x xs)
      · rw [hfold, min_eq_right h]
        rcases hmem with h2 | h2
        · exact Or.inl h2
        · exact Or.inr (List.mem_cons_of_mem x h2)
    · rw [hfold]
      exact le_trans (min_le_right _ _) hle
    · intro g hg
      rcases List.mem_cons.mp hg with rfl | hg
      · rw [hfold]
        exact min_le_left _ _
      · rw [hfold]
        exact le_trans (min_le_right _ _) (hall g hg)

/-- Running maximum of a list of rationals via foldr. -/
theorem foldr_max_spec (xs : List ℚ) (a : ℚ) :
    (xs.foldr max a = a ∨ xs.foldr max a ∈ xs)
    ∧ a ≤ xs.foldr max a ∧ ∀ g ∈ xs, g ≤ xs.foldr max a := by
  induction xs with
  | nil => simp
  | cons x xs ih =>
    obtain ⟨hmem, hle, hall⟩ := ih
    have hfold : (x :: xs).foldr max a = max x (xs.foldr max a) := rfl
    refine ⟨?_, ?_, ?_⟩
    · rcases le_total x (xs.foldr max a) with h | h
      · rw [hfold, max_eq_right h]
        rcases hmem with h2 | h2
        · exact Or.inl h2
        · exact Or.inr (List.mem_cons_of_mem x h2)
      · rw [hfold, max_eq_left h]
        exact Or.inr (List.mem_cons_self x xs)
    · rw [hfold]
      exact le_trans hle (le_max_right _ _)
    · intro g hg
      rcases List.mem_cons.mp hg with rfl | hg
      · rw [hfold]
        exact le_max_left _ _
      · rw [hfold]
        exact le_trans (hall g hg) (le_max_right _ _)

namespace CreateApplicationArrivalAverage

/-! ## Gap statistics: src/create_application_arrival_average.py

describe_arrival_times sorts the arrival series again, takes the
consecutive differences, drops the leading NaN, converts the gaps to hours
(total_seconds() / 3600.0) and returns their pandas describe() statistics.
The pandas std is the square root of the sample variance std_sq recorded
here; the 25% and 75% quartiles are not needed by any claim and are not
modelled. -/

/-- Consecutive arrival gaps converted to hours. -/
def diffs_hours (series : List Int) : List ℚ :=
  (consecDiffs (series.insertionSort intLe)).map (fun d : Int => (d : ℚ) / 3600)

/-- Median (the 50% entry of pandas describe, with linear interpolation
between the two middle entries for an even count). -/
def median_of (ds : List ℚ) : ℚ :=
  let s := ds.insertionSort ratLe
  if ds.length % 2 = 1 then s.getD (ds.length / 2) 0
  else (s.getD (ds.length / 2 - 1) 0 + s.getD (ds.length / 2) 0) / 2

/-- Statistics record of describe_arrival_times. -/
structure GapStats where
  count : Nat
  mean : ℚ
  std_sq : ℚ
  minGap : ℚ
  median : ℚ
  maxGap : ℚ
deriving DecidableEq

/-- Embedding of describe_arrival_times: an empty series is returned for
fewer than two arrivals, otherwise the describe statistics of the hour
gaps. -/
def describe_arrival_times (series : List Int) : Option GapStats :=
  if series.length < 2 then none
  else
    let ds := diffs_hours series
    let m := ds.sum / (ds.length : ℚ)
    some { count := ds.length
           mean := m
           std_sq := if 2 ≤ ds.length then
               ((ds.map (fun x => (x - m) ^ 2)).sum) / ((ds.length : ℚ) - 1)
             else 0
           minGap := ds.foldr min (ds.headD 0)
           median := median_of ds
           maxGap := ds.foldr max (ds.headD 0) }

/-- C8 (amended): for fewer than two arrivals the gap statistics are empty;
for at least two arrivals they cover the count − 1 consecutive gaps in
hours, with the mean, the minimum, the maximum and the median of those hour
gaps. -/
theorem gap_statistics_spec (series : List Int) :
    (series.length < 2 → describe_arrival_times series = none)
    ∧ (2 ≤ series.length →
        ∃ st, describe_arrival_times series = some st
          ∧ st.count = series.length - 1
          ∧ st.mean = (diffs_hours series).sum / ((diffs_hours series).length : ℚ)
          ∧ st.minGap ∈ diffs_hours series
          ∧ (∀ g ∈ diffs_hours series, st.minGap ≤ g)
          ∧ st.maxGap ∈ diffs_hours series
          ∧ (∀ g ∈ diffs_hours series, g ≤ st.maxGap)
          ∧ (2 ≤ (diffs_hours series).length →
              st.std_sq = ((diffs_hours series).map
                  (fun x => (x - (diffs_hours series).sum /
                    ((diffs_hours series).length : ℚ)) ^ 2)).sum /
                (((diffs_hours series).length : ℚ) - 1))
          ∧ st.median = median_of (diffs_hours series)) := by
  constructor
  · intro h
    rw [describe_arrival_times, if_pos h]
  · intro h
    rw [describe_arrival_times, if_neg (by omega)]
    have hdslen : (diffs_hours series).length = series.length - 1 := by
      rw [diffs_hours, List.length_map, consecDiffs_length, List.length_insertionSort]
    have hne : diffs_hours series ≠ [] := by
      intro he
      rw [he] at hdslen
      simp only [List.length_nil] at hdslen
      omega
    obtain ⟨d, ds2, hds⟩ := List.exists_cons_of_ne_nil hne
    have hseedmem : (diffs_hours series).headD 0 ∈ diffs_hours series := by
      rw [hds]
      exact List.mem_cons_self d ds2
    have hmin := foldr_min_spec (diffs_hours series) ((diffs_hours series).headD 0)
    have hmax := foldr_max_spec (diffs_hours series) ((diffs_hours series).headD 0)
    refine ⟨_, rfl, hdslen, rfl, ?_, hmin.2.2, ?_, hmax.2.2, ?_, rfl⟩
    · rcases hmin.1 with h2 | h2
      · rw [h2]
        exact hseedmem
      · exact h2
    · rcases hmax.1 with h2 | h2
      · rw [h2]
        exact hseedmem
      · exact h2
    · intro h2
      exact if_pos h2

/-- C8 counterexample: anchor arrivals at 0, 100 and 300 seconds give a gap
mean of 1/24 hours (the gaps are converted to hours by
describe_arrival_times), not 150. -/
theorem gap_statistics_scenario_counterexample :
    (describe_arrival_times [0, 100, 300]).map GapStats.mean = some (1 / 24)
    ∧ ((1 : ℚ) / 24) ≠ 150 := by
  constructor
  · norm_num [describe_arrival_times, diffs_hours, consecDiffs, intLe,
      List.insertionSort, List.orderedInsert]
  · norm_num

/-- C8 witness: the amended statement instantiated at the arrivals 0, 100
and 300 seconds. -/
theorem gap_statistics_spec_witness :
    2 ≤ ([0, 100, 300] : List Int).length
    ∧ (∃ st, describe_arrival_times [0, 100, 300] = some st
        ∧ st.count = ([0, 100, 300] : List Int).length - 1
        ∧ st.mean = (diffs_hours [0, 100, 300]).sum /
            ((diffs_hours [0, 100, 300]).length : ℚ)
        ∧ st.minGap ∈ diffs_hours [0, 100, 300]
        ∧ (∀ g ∈ diffs_hours [0, 100, 300], st.minGap ≤ g)
        ∧ st.maxGap ∈ diffs_hours [0, 100, 300]
        ∧ (∀ g ∈ diffs_hours [0, 100, 300], g ≤ st.maxGap)
        ∧ (2 ≤ (diffs_hours [0, 100, 300]).length →
            st.std_sq = ((diffs_hours [0, 100, 300]).map
                (fun x => (x - (diffs_hours [0, 100, 300]).sum /
                  ((diffs_hours [0, 100, 300]).length : ℚ)) ^ 2)).sum /
              (((diffs_hours [0, 100, 300]).length : ℚ) - 1))
        ∧ st.median = median_of (diffs_hours [0, 100, 300])) :=
  ⟨by decide, (gap_statistics_spec [0, 100, 300]).2 (by decide)⟩

end CreateApplicationArrivalAverage
